import Mathlib

/-!
Shallow embedding of the `wordwrap` Go package (files `wordwrap.go` and the
`runeBuffer` counted accumulator).  Strings are modelled as lists of
codepoints (`List Char`); the underlying `io.RuneScanner` is modelled as the
list of codepoints still to be read plus a flag saying whether, after those
codepoints, the source reports a hard read failure (instead of a clean EOF).
`unicode.IsSpace` is modelled by its Latin-1 table (the higher Unicode
space categories are irrelevant to the inputs considered here).
-/

namespace Wordwrap

/-- Terminal outcomes of the underlying rune source: clean end of input
(`io.EOF`) or a hard read failure (any other error). -/
inductive ScanErr where
  | eof
  | readFail
deriving DecidableEq, Repr

/-- The counted accumulator `runeBuffer`: a text buffer plus a cached
codepoint count. -/
structure runeBuffer where
  buf : List Char
  runeCount : Nat
deriving DecidableEq, Repr

/-- A fresh (zero-valued) `runeBuffer`. -/
def runeBuffer.empty : runeBuffer := { buf := [], runeCount := 0 }

/-- `func (b *runeBuffer) Count() int`. -/
def runeBuffer.Count (b : runeBuffer) : Nat := b.runeCount

/-- `func (b *runeBuffer) WriteRune(r rune)`. -/
def runeBuffer.WriteRune (b : runeBuffer) (c : Char) : runeBuffer :=
  { buf := b.buf ++ [c], runeCount := b.runeCount + 1 }

/-- `func (b *runeBuffer) WriteString(s string)`: appends the text and adds
its codepoint count. -/
def runeBuffer.WriteString (b : runeBuffer) (s : List Char) : runeBuffer :=
  { buf := b.buf ++ s, runeCount := b.runeCount + s.length }

/-- `func (b *runeBuffer) WriteTo(w *runeBuffer)`: transfers all content and
count from `b` into `w`; returns the pair (new `b`, new `w`). -/
def runeBuffer.WriteTo (b w : runeBuffer) : runeBuffer × runeBuffer :=
  (runeBuffer.empty,
   { buf := w.buf ++ b.buf, runeCount := w.runeCount + b.runeCount })

/-- `func (b *runeBuffer) Reset()`. -/
def runeBuffer.Reset (_ : runeBuffer) : runeBuffer := runeBuffer.empty

/-- `unicode.IsSpace`, restricted to its Latin-1 table:
space, tab, newline, vertical tab, form feed, carriage return,
next line (U+0085) and no-break space (U+00A0). -/
def isSpace (c : Char) : Bool :=
  c == ' ' || c == '\t' || c == '\n' || c == Char.ofNat 0x0B ||
  c == Char.ofNat 0x0C || c == '\r' || c == Char.ofNat 0x85 || c == Char.ofNat 0xA0

/-- The `Scanner` state: configuration (width limit, line prefix string, tab
width, all fixed during a run) and the scan state (terminal error marker,
the three counted accumulators and the two flags).  The remaining input and
the failure flag of the rune source are passed alongside the state. -/
structure Scanner where
  limit : Nat
  prefixStr : List Char
  tabWidth : Nat
  err : Option ScanErr
  line : runeBuffer
  word : runeBuffer
  space : runeBuffer
  needNewline : Bool
  skipNextWS : Bool
deriving DecidableEq, Repr

/-- `NewScanner`: fresh state, default tab width 4, empty prefix. -/
def NewScanner (limit : Nat) : Scanner :=
  { limit := limit, prefixStr := [], tabWidth := 4, err := none,
    line := runeBuffer.empty, word := runeBuffer.empty, space := runeBuffer.empty,
    needNewline := false, skipNextWS := false }

/-- `func (s *Scanner) SetPrefix(prefix string)`. -/
def Scanner.SetPrefix (s : Scanner) (p : List Char) : Scanner :=
  { s with prefixStr := p }

/-- `func (s *Scanner) SetTabWidth(width int)`. -/
def Scanner.SetTabWidth (s : Scanner) (w : Nat) : Scanner :=
  { s with tabWidth := w }

/-- `func (s *Scanner) flushWord()`: if the pending word is non-empty,
commit (prefix when the line is empty, then pending space, then pending
word) into the committed line.  In-memory writes cannot fail. -/
def Scanner.flushWord (s : Scanner) : Scanner :=
  if s.word.Count > 0 then
    let line0 := if s.line.Count = 0 then s.line.WriteString s.prefixStr else s.line
    let sp := s.space.WriteTo line0
    let wd := s.word.WriteTo sp.2
    { s with line := wd.2, space := sp.1, word := wd.1 }
  else s

/-- The whitespace-accumulation step of `ReadLine` for a non-newline,
non-skipped whitespace character: a tab is expanded to
`tabWidth - line.Count() % tabWidth` spaces (0 when the tab width is 0),
any other whitespace codepoint is appended as-is. -/
def Scanner.handleSpaceChar (s : Scanner) (c : Char) : Scanner :=
  if c == '\t' then
    let count := if s.tabWidth = 0 then 0 else s.tabWidth - s.line.Count % s.tabWidth
    { s with space := s.space.WriteString (List.replicate count ' ') }
  else
    { s with space := s.space.WriteRune c }

/-- The body of the width check once `line.Count + word.Count + space.Count`
has reached the limit: peek one rune (an error other than EOF aborts), flush
the word on a word break, decide `needNewline`, set `skipNextWS` and reset
the pending space. -/
def Scanner.forceCommit (s : Scanner) (rest : List Char) (fail : Bool) :
    Except ScanErr Scanner :=
  match rest with
  | [] =>
    if fail then Except.error ScanErr.readFail
    else
      let s1 := s.flushWord
      Except.ok { s1 with skipNextWS := true, space := runeBuffer.empty }
  | next :: _ =>
    let s1 := if s.word.Count = s.limit || isSpace next then s.flushWord else s
    let s2 := if next != '\n' && decide (s1.space.Count < s1.limit) then
        { s1 with needNewline := true }
      else s1
    Except.ok { s2 with skipNextWS := true, space := runeBuffer.empty }

/-- The width check at the end of each loop iteration of `ReadLine`. -/
def Scanner.widthCheck (s : Scanner) (rest : List Char) (fail : Bool) :
    Except ScanErr Scanner :=
  if s.limit ≤ s.line.Count + s.word.Count + s.space.Count then
    s.forceCommit rest fail
  else Except.ok s

/-- Sum of the codepoint counts of the three accumulators (the quantity
tested by the width check). -/
def Scanner.sumCounts (s : Scanner) : Nat :=
  s.line.Count + s.word.Count + s.space.Count

/-- The main loop of `ReadLine`.  Returns the produced line paired with an
optional error (the Go `(string, error)` pair), the scanner state after the
call, and the input not yet consumed. -/
def Scanner.loop : Scanner → List Char → Bool →
    (List Char × Option ScanErr) × Scanner × List Char
  | s, [], fail =>
    if fail then
      (([], some ScanErr.readFail), { s with err := some ScanErr.readFail }, [])
    else
      let s1 := s.flushWord
      ((s1.line.buf, none),
       { s1 with line := runeBuffer.empty, err := some ScanErr.eof }, [])
  | s, c :: rest, fail =>
    if isSpace c then
      let s1 := s.flushWord
      if c == '\n' then
        ((s1.line.buf, none),
         { s1 with skipNextWS := false, line := runeBuffer.empty,
                   space := runeBuffer.empty }, rest)
      else if s1.skipNextWS then
        s1.loop rest fail
      else
        let s2 := s1.handleSpaceChar c
        match s2.widthCheck rest fail with
        | Except.error e => (([], some e), { s2 with err := some e }, rest)
        | Except.ok s3 => s3.loop rest fail
    else
      let s1 := { s with word := s.word.WriteRune c, skipNextWS := false }
      if s1.needNewline then
        ((s1.line.buf, none),
         { s1 with needNewline := false, line := runeBuffer.empty }, rest)
      else
        match s1.widthCheck rest fail with
        | Except.error e => (([], some e), { s1 with err := some e }, rest)
        | Except.ok s3 => s3.loop rest fail

/-- `func (s *Scanner) ReadLine() (string, error)`: return the stored
terminal outcome if set, otherwise run the loop. -/
def Scanner.ReadLine (s : Scanner) (inp : List Char) (fail : Bool) :
    (List Char × Option ScanErr) × Scanner × List Char :=
  match s.err with
  | some e => (([], some e), s, inp)
  | none => s.loop inp fail

/-- The continuation of a loop iteration from the state at which the width
check is evaluated. -/
def Scanner.afterCheck (s2 : Scanner) (rest : List Char) (fail : Bool) :
    (List Char × Option ScanErr) × Scanner × List Char :=
  match s2.widthCheck rest fail with
  | Except.error e => (([], some e), { s2 with err := some e }, rest)
  | Except.ok s3 => s3.loop rest fail

/-- The state at which the width check of a loop iteration is evaluated
when the character `c` is processed from state `s` (`none` when the
iteration returns or continues before reaching the check). -/
def Scanner.preCheck (s : Scanner) (c : Char) : Option Scanner :=
  if isSpace c then
    let s1 := s.flushWord
    if c == '\n' then none
    else if s1.skipNextWS then none
    else some (s1.handleSpaceChar c)
  else
    let s1 := { s with word := s.word.WriteRune c, skipNextWS := false }
    if s1.needNewline then none else some s1

/-- Fuel-indexed driver: call `ReadLine` repeatedly, collecting the produced
lines until a terminal outcome.  The fuel is a technical bound on the number
of calls; `Scanner.linesFrom` below always supplies enough. -/
def linesFromF : Nat → Scanner → List Char → Bool → List (List Char) × ScanErr
  | 0, _, _, _ => ([], ScanErr.eof)
  | fuel + 1, s, inp, fail =>
    let r := s.ReadLine inp fail
    match r.1.2 with
    | some e => ([], e)
    | none =>
      let p := linesFromF fuel r.2.1 r.2.2 fail
      (r.1.1 :: p.1, p.2)

/-- All lines produced by repeated `ReadLine` calls, with the terminal
outcome.  Each successful `ReadLine` call either consumes input or marks the
scanner terminal, so `inp.length + 2` calls always reach the terminal
outcome. -/
def Scanner.linesFrom (s : Scanner) (inp : List Char) (fail : Bool) :
    List (List Char) × ScanErr :=
  linesFromF (inp.length + 2) s inp fail

/-- An `io.Writer` sink: the units written so far, and an optional budget of
units it still accepts before failing (a `w.Write` that errors part-way
through reports the units it did accept, like a real short write). -/
structure Sink where
  written : List Char
  budget : Option Nat
deriving DecidableEq, Repr

/-- One `Write` call on the sink: returns the new sink, the count of units
accepted, and whether the write failed. -/
def Sink.write (w : Sink) (s : List Char) : Sink × Nat × Bool :=
  match w.budget with
  | none => ({ written := w.written ++ s, budget := none }, s.length, false)
  | some b =>
    if s.length ≤ b then
      ({ written := w.written ++ s, budget := some (b - s.length) }, s.length, false)
    else
      ({ written := w.written ++ s.take b, budget := some 0 }, b, true)

/-- Errors surfaced by `WriteTo`: a read failure from `ReadLine` or a sink
write failure.  (End of input is a normal stop, not an error.) -/
inductive DrainErr where
  | readFail
  | sinkFail
deriving DecidableEq, Repr

/-- Fuel-indexed body of `func (s *Scanner) WriteTo(w io.Writer)`. -/
def writeToF : Nat → Scanner → List Char → Bool → Sink → Nat → Bool →
    Nat × Option DrainErr × Sink
  | 0, _, _, _, w, n, _ => (n, none, w)
  | fuel + 1, s, inp, fail, w, n, firstLine =>
    let r := s.ReadLine inp fail
    match r.1.2 with
    | some ScanErr.eof => (n, none, w)
    | some ScanErr.readFail => (n, some DrainErr.readFail, w)
    | none =>
      let step1 := if firstLine then (w, 0, false) else w.write ['\n']
      let n1 := n + step1.2.1
      if step1.2.2 then (n1, some DrainErr.sinkFail, step1.1)
      else
        let step2 := step1.1.write r.1.1
        let n2 := n1 + step2.2.1
        if step2.2.2 then (n2, some DrainErr.sinkFail, step2.1)
        else writeToF fuel r.2.1 r.2.2 fail step2.1 n2 false

/-- `func (s *Scanner) WriteTo(w io.Writer) (int64, error)`: drain all lines
to the sink, a newline separator before every line after the first. -/
def Scanner.WriteTo (s : Scanner) (inp : List Char) (fail : Bool) (w : Sink) :
    Nat × Option DrainErr × Sink :=
  writeToF (inp.length + 2) s inp fail w 0 true

/-- Units written after the first line: a newline before every line. -/
def joinRest : List (List Char) → List Char
  | [] => []
  | l :: ls => '\n' :: (l ++ joinRest ls)

/-- The lines joined by single newline separators. -/
def joinLines : List (List Char) → List Char
  | [] => []
  | l :: ls => l ++ joinRest ls

/-- Units written for the remaining lines: a separator before each when the
first line has already been written, otherwise no separator before the
first. -/
def joinFrom (firstLine : Bool) (ls : List (List Char)) : List Char :=
  if firstLine then joinLines ls else joinRest ls

/-- The shape of every line the scanner can emit: empty or an extension of
the configured prefix, never ending in whitespace, and newline-free as long
as the prefix is. -/
def lineOK (p l : List Char) : Prop :=
  (l = [] ∨ p <+: l) ∧ (∀ c, l.getLast? = some c → isSpace c = false) ∧
  ('\n' ∉ p → '\n' ∉ l)

/-- Invariant of reachable scanner states: cached counts agree with buffer
lengths, the pending word holds only non-whitespace, the pending space run
holds only non-newline whitespace, and the committed line has shape
`lineOK`. -/
structure Inv (s : Scanner) : Prop where
  line_wf : s.line.runeCount = s.line.buf.length
  word_wf : s.word.runeCount = s.word.buf.length
  space_wf : s.space.runeCount = s.space.buf.length
  word_nonspace : ∀ c ∈ s.word.buf, isSpace c = false
  space_space : ∀ c ∈ s.space.buf, isSpace c = true ∧ c ≠ '\n'
  line_ok : lineOK s.prefixStr s.line.buf

/-- What every `loop` result satisfies, starting from an invariant state
with prefix `p`: the result state is invariant with the same prefix, the
produced line has shape `lineOK p`, and an error outcome carries an empty
line and is recorded in the state. -/
def loopRes (p : List Char) (r : (List Char × Option ScanErr) × Scanner × List Char) :
    Prop :=
  Inv r.2.1 ∧ r.2.1.prefixStr = p ∧ lineOK p r.1.1 ∧
  (∀ e, r.1.2 = some e → r.1.1 = [] ∧ r.2.1.err = some e)

/-- The operations a `runeBuffer` supports, as invoked by the scanner and
the tests: append a codepoint, append a string, receive a transfer from
another buffer, transfer out into another buffer, reset. -/
inductive BufOp where
  | writeRune : Char → BufOp
  | writeString : List Char → BufOp
  | transferIn : runeBuffer → BufOp
  | transferOut : runeBuffer → BufOp
  | reset : BufOp

/-- Apply one operation to a buffer (for the two transfer operations, the
result is the side of `WriteTo` belonging to this buffer). -/
def applyOp (b : runeBuffer) : BufOp → runeBuffer
  | BufOp.writeRune c => b.WriteRune c
  | BufOp.writeString s => b.WriteString s
  | BufOp.transferIn src => (src.WriteTo b).2
  | BufOp.transferOut dest => (b.WriteTo dest).1
  | BufOp.reset => b.Reset

/-- Apply a sequence of operations in order. -/
def applyOps (b : runeBuffer) : List BufOp → runeBuffer
  | [] => b
  | op :: ops => applyOps (applyOp b op) ops

/-- The cached-count invariant of the counted accumulator. -/
def bufWf (b : runeBuffer) : Prop := b.runeCount = b.buf.length

/-- A transfer-in is only as good as the source buffer it merges. -/
def opWf : BufOp → Prop
  | BufOp.transferIn src => bufWf src
  | _ => True

/-! ### Basic facts about the counted accumulator -/

@[simp] theorem runeBuffer.empty_buf : (runeBuffer.empty).buf = [] := rfl

@[simp] theorem runeBuffer.empty_runeCount : (runeBuffer.empty).runeCount = 0 := rfl

@[simp] theorem runeBuffer.Count_eq (b : runeBuffer) : b.Count = b.runeCount := rfl

@[simp] theorem runeBuffer.WriteRune_buf (b : runeBuffer) (c : Char) :
    (b.WriteRune c).buf = b.buf ++ [c] := rfl

@[simp] theorem runeBuffer.WriteRune_runeCount (b : runeBuffer) (c : Char) :
    (b.WriteRune c).runeCount = b.runeCount + 1 := rfl

@[simp] theorem runeBuffer.WriteString_buf (b : runeBuffer) (s : List Char) :
    (b.WriteString s).buf = b.buf ++ s := rfl

@[simp] theorem runeBuffer.WriteString_runeCount (b : runeBuffer) (s : List Char) :
    (b.WriteString s).runeCount = b.runeCount + s.length := rfl

@[simp] theorem runeBuffer.WriteTo_fst (b w : runeBuffer) :
    (b.WriteTo w).1 = runeBuffer.empty := rfl

@[simp] theorem runeBuffer.WriteTo_snd_buf (b w : runeBuffer) :
    (b.WriteTo w).2.buf = w.buf ++ b.buf := rfl

@[simp] theorem runeBuffer.WriteTo_snd_runeCount (b w : runeBuffer) :
    (b.WriteTo w).2.runeCount = w.runeCount + b.runeCount := rfl

/-! ### The reachable-state invariant -/

theorem lineOK_nil (p : List Char) : lineOK p [] := by
  refine ⟨Or.inl rfl, ?_, ?_⟩ <;> simp

theorem Inv_NewScanner (limit : Nat) : Inv (NewScanner limit) := by
  refine ⟨rfl, rfl, rfl, ?_, ?_, lineOK_nil _⟩ <;> simp [NewScanner]

theorem Inv_SetPrefix (s : Scanner) (p : List Char) (h : Inv s)
    (hl : s.line.buf = []) : Inv (s.SetPrefix p) := by
  refine ⟨h.line_wf, h.word_wf, h.space_wf, h.word_nonspace, h.space_space, ?_⟩
  simp only [Scanner.SetPrefix, hl]
  exact lineOK_nil p

theorem Inv_SetTabWidth (s : Scanner) (w : Nat) (h : Inv s) :
    Inv (s.SetTabWidth w) :=
  ⟨h.line_wf, h.word_wf, h.space_wf, h.word_nonspace, h.space_space, h.line_ok⟩

theorem flushWord_fields (s : Scanner) :
    (s.flushWord).prefixStr = s.prefixStr ∧ (s.flushWord).limit = s.limit ∧
    (s.flushWord).tabWidth = s.tabWidth ∧ (s.flushWord).err = s.err ∧
    (s.flushWord).needNewline = s.needNewline ∧
    (s.flushWord).skipNextWS = s.skipNextWS := by
  unfold Scanner.flushWord
  split <;> simp

theorem flushWord_of_word_zero {s : Scanner} (h : s.word.runeCount = 0) :
    s.flushWord = s := by
  unfold Scanner.flushWord
  rw [if_neg]
  simp [h]

theorem flushWord_of_word_pos {s : Scanner} (h : 0 < s.word.runeCount) :
    s.flushWord = { s with
      line := { buf := ((if s.line.runeCount = 0 then s.line.buf ++ s.prefixStr
                         else s.line.buf) ++ s.space.buf) ++ s.word.buf,
                runeCount := ((if s.line.runeCount = 0 then
                                s.line.runeCount + s.prefixStr.length
                               else s.line.runeCount)
                              + s.space.runeCount) + s.word.runeCount },
      space := runeBuffer.empty, word := runeBuffer.empty } := by
  unfold Scanner.flushWord
  rw [if_pos (by simpa using h)]
  by_cases h0 : s.line.runeCount = 0 <;>
    simp [h0, runeBuffer.WriteTo, runeBuffer.WriteString]

theorem Inv.flushWord {s : Scanner} (h : Inv s) : Inv s.flushWord := by
  rcases Nat.eq_zero_or_pos s.word.runeCount with h0 | h0
  · rw [flushWord_of_word_zero h0]
    exact h
  · rw [flushWord_of_word_pos h0]
    have hwne : s.word.buf ≠ [] := by
      intro hnil
      rw [h.word_wf, hnil] at h0
      simp at h0
    obtain ⟨d, hd⟩ : ∃ d, s.word.buf.getLast? = some d := by
      cases hx : s.word.buf.getLast? with
      | none => exact absurd (List.getLast?_eq_none_iff.1 hx) hwne
      | some d => exact ⟨d, rfl⟩
    refine ⟨?_, rfl, rfl, by simp, by simp, ?_, ?_, ?_⟩
    · simp only []
      split <;> simp [h.line_wf, h.word_wf, h.space_wf] <;> omega
    · right
      split
      case isTrue hl0 =>
        have hnil : s.line.buf = [] := by
          rw [h.line_wf] at hl0
          exact List.eq_nil_of_length_eq_zero hl0
        rw [hnil, List.nil_append]
        exact (List.prefix_append _ _).trans (List.prefix_append _ _)
      case isFalse hl0 =>
        have hlne : s.line.buf ≠ [] := by
          intro hnil
          rw [h.line_wf, hnil] at hl0
          simp at hl0
        rcases h.line_ok.1 with h1 | h1
        · exact absurd h1 hlne
        · exact (h1.trans (List.prefix_append _ _)).trans (List.prefix_append _ _)
    · intro c hc
      rw [List.getLast?_append, hd, Option.or] at hc
      cases hc
      exact h.word_nonspace d (List.mem_of_getLast?_eq_some hd)
    · intro hp hmem
      simp only [List.mem_append] at hmem
      rcases hmem with (hmem | hmem) | hmem
      · revert hmem
        split
        case isTrue hl0 =>
          have hnil : s.line.buf = [] := by
            rw [h.line_wf] at hl0
            exact List.eq_nil_of_length_eq_zero hl0
          rw [hnil]
          intro hmem
          rw [List.nil_append] at hmem
          exact hp hmem
        case isFalse hl0 =>
          intro hmem
          exact h.line_ok.2.2 hp hmem
      · exact (h.space_space _ hmem).2 rfl
      · have := h.word_nonspace _ hmem
        simp [isSpace] at this

theorem handleSpaceChar_fields (s : Scanner) (c : Char) :
    (s.handleSpaceChar c).prefixStr = s.prefixStr ∧
    (s.handleSpaceChar c).limit = s.limit ∧
    (s.handleSpaceChar c).line = s.line ∧
    (s.handleSpaceChar c).word = s.word ∧
    (s.handleSpaceChar c).err = s.err ∧
    (s.handleSpaceChar c).needNewline = s.needNewline ∧
    (s.handleSpaceChar c).skipNextWS = s.skipNextWS := by
  unfold Scanner.handleSpaceChar
  split <;> simp

theorem Inv.handleSpaceChar {s : Scanner} {c : Char} (h : Inv s)
    (hc1 : isSpace c = true) (hc2 : c ≠ '\n') : Inv (s.handleSpaceChar c) := by
  unfold Scanner.handleSpaceChar
  split
  · refine ⟨h.line_wf, h.word_wf, ?_, h.word_nonspace, ?_, h.line_ok⟩
    · simp [h.space_wf]
    · intro x hx
      simp only [runeBuffer.WriteString_buf, List.mem_append] at hx
      rcases hx with hx | hx
      · exact h.space_space x hx
      · rw [List.eq_of_mem_replicate hx]
        refine ⟨by simp [isSpace], by simp⟩
  · refine ⟨h.line_wf, h.word_wf, ?_, h.word_nonspace, ?_, h.line_ok⟩
    · simp [h.space_wf]
    · intro x hx
      simp only [runeBuffer.WriteRune_buf, List.mem_append, List.mem_singleton] at hx
      rcases hx with hx | rfl
      · exact h.space_space x hx
      · exact ⟨hc1, hc2⟩

theorem Inv_update_err {s : Scanner} (e : Option ScanErr) (h : Inv s) :
    Inv { s with err := e } :=
  ⟨h.line_wf, h.word_wf, h.space_wf, h.word_nonspace, h.space_space, h.line_ok⟩

theorem Inv_update_needNewline {s : Scanner} (b : Bool) (h : Inv s) :
    Inv { s with needNewline := b } :=
  ⟨h.line_wf, h.word_wf, h.space_wf, h.word_nonspace, h.space_space, h.line_ok⟩

theorem Inv_update_commitEnd {s : Scanner} (h : Inv s) :
    Inv { s with skipNextWS := true, space := runeBuffer.empty } :=
  ⟨h.line_wf, h.word_wf, rfl, h.word_nonspace, by simp, h.line_ok⟩

theorem Inv_commit_shape {X : Scanner} (hX : Inv X) (nn sk : Bool) :
    Inv { limit := X.limit, prefixStr := X.prefixStr, tabWidth := X.tabWidth,
          err := X.err, line := X.line, word := X.word,
          space := runeBuffer.empty, needNewline := nn, skipNextWS := sk } :=
  ⟨hX.line_wf, hX.word_wf, rfl, hX.word_nonspace, by simp, hX.line_ok⟩

theorem forceCommit_ok {s s' : Scanner} {rest : List Char} {fail : Bool}
    (h : Inv s) (hok : s.forceCommit rest fail = Except.ok s') :
    Inv s' ∧ s'.prefixStr = s.prefixStr ∧ s'.err = s.err := by
  unfold Scanner.forceCommit at hok
  cases rest with
  | nil =>
    cases fail with
    | true => simp at hok
    | false =>
      simp only [Bool.false_eq_true, if_false] at hok
      cases hok
      exact ⟨Inv_commit_shape h.flushWord _ true,
        (flushWord_fields s).1, (flushWord_fields s).2.2.2.1⟩
  | cons next rest' =>
    cases hok
    split
    · split
      · exact ⟨Inv_commit_shape h.flushWord true true,
          (flushWord_fields s).1, (flushWord_fields s).2.2.2.1⟩
      · exact ⟨Inv_commit_shape h.flushWord _ true,
          (flushWord_fields s).1, (flushWord_fields s).2.2.2.1⟩
    · split
      · exact ⟨Inv_commit_shape h true true, rfl, rfl⟩
      · exact ⟨Inv_commit_shape h _ true, rfl, rfl⟩

theorem widthCheck_ok {s s' : Scanner} {rest : List Char} {fail : Bool}
    (h : Inv s) (hok : s.widthCheck rest fail = Except.ok s') :
    Inv s' ∧ s'.prefixStr = s.prefixStr ∧ s'.err = s.err := by
  unfold Scanner.widthCheck at hok
  by_cases hcond : s.limit ≤ s.line.Count + s.word.Count + s.space.Count
  · rw [if_pos hcond] at hok
    exact forceCommit_ok h hok
  · rw [if_neg hcond] at hok
    cases hok
    exact ⟨h, rfl, rfl⟩

theorem Inv_wordRune {s : Scanner} {c : Char} (h : Inv s) (hc : isSpace c = false) :
    Inv { s with word := s.word.WriteRune c, skipNextWS := false } := by
  refine ⟨h.line_wf, ?_, h.space_wf, ?_, h.space_space, h.line_ok⟩
  · simp [h.word_wf]
  · intro x hx
    simp only [runeBuffer.WriteRune_buf, List.mem_append,
      List.mem_singleton] at hx
    rcases hx with hx | rfl
    · exact h.word_nonspace x hx
    · exact hc

theorem Inv_emit_shape {X : Scanner} (hX : Inv X) (e : Option ScanErr)
    (sp : runeBuffer) (hsp : ∀ c ∈ sp.buf, isSpace c = true ∧ c ≠ '\n')
    (hwf : sp.runeCount = sp.buf.length) (nn sk : Bool) :
    Inv { limit := X.limit, prefixStr := X.prefixStr, tabWidth := X.tabWidth,
          err := e, line := runeBuffer.empty, word := X.word,
          space := sp, needNewline := nn, skipNextWS := sk } :=
  ⟨rfl, hX.word_wf, hwf, hX.word_nonspace, hsp, lineOK_nil _⟩

theorem loop_props : ∀ (inp : List Char) (s : Scanner) (fail : Bool), Inv s →
    loopRes s.prefixStr (s.loop inp fail) := by
  intro inp
  induction inp with
  | nil =>
    intro s fail h
    simp only [Scanner.loop]
    split
    · exact ⟨Inv_update_err _ h, rfl, lineOK_nil _,
        fun e he => ⟨rfl, by cases he; rfl⟩⟩
    · refine ⟨Inv_emit_shape h.flushWord _ _ (h.flushWord).space_space
        (h.flushWord).space_wf _ _, (flushWord_fields s).1, ?_,
        fun e he => Option.noConfusion he⟩
      rw [← (flushWord_fields s).1]
      exact (h.flushWord).line_ok
  | cons c rest ih =>
    intro s fail h
    simp only [Scanner.loop]
    split
    · -- whitespace character
      split
      · -- newline: return the flushed line
        refine ⟨Inv_emit_shape h.flushWord _ _ (by simp) rfl _ _,
          (flushWord_fields s).1, ?_, fun e he => Option.noConfusion he⟩
        rw [← (flushWord_fields s).1]
        exact (h.flushWord).line_ok
      · split
        · -- skipNextWS: continue
          have := ih s.flushWord fail h.flushWord
          rwa [(flushWord_fields s).1] at this
        · -- accumulate whitespace, then width check
          rename_i hsp hnl _
          have hc1 : isSpace c = true := hsp
          have hc2 : c ≠ '\n' := by
            intro hcc
            rw [hcc] at hnl
            simp at hnl
          have h2 : Inv ((s.flushWord).handleSpaceChar c) :=
            (h.flushWord).handleSpaceChar hc1 hc2
          have hpfx : ((s.flushWord).handleSpaceChar c).prefixStr = s.prefixStr := by
            rw [(handleSpaceChar_fields _ _).1, (flushWord_fields s).1]
          split
          · -- width check aborted with a read error
            exact ⟨Inv_update_err _ h2, hpfx, lineOK_nil _,
              fun e' he' => ⟨rfl, by cases he'; rfl⟩⟩
          · -- width check succeeded: recurse
            rename_i s3 hwc
            obtain ⟨h3, hp3, -⟩ := widthCheck_ok h2 hwc
            have := ih s3 fail h3
            rwa [hp3, hpfx] at this
    · -- non-whitespace character
      rename_i hsp
      have hc : isSpace c = false := by
        revert hsp
        cases isSpace c <;> simp
      have h1 : Inv { s with word := s.word.WriteRune c, skipNextWS := false } :=
        Inv_wordRune h hc
      split
      · -- needNewline: return the committed line
        exact ⟨Inv_emit_shape h1 _ _ h1.space_space h1.space_wf _ _, rfl,
          h.line_ok, fun e he => Option.noConfusion he⟩
      · split
        · -- width check aborted with a read error
          exact ⟨Inv_update_err _ h1, rfl, lineOK_nil _,
            fun e' he' => ⟨rfl, by cases he'; rfl⟩⟩
        · -- width check succeeded: recurse
          rename_i s3 hwc
          obtain ⟨h3, hp3, -⟩ := widthCheck_ok h1 hwc
          have := ih s3 fail h3
          rwa [hp3] at this

theorem ReadLine_props {s : Scanner} (inp : List Char) (fail : Bool) (h : Inv s) :
    loopRes s.prefixStr (s.ReadLine inp fail) := by
  unfold Scanner.ReadLine
  cases he : s.err with
  | some e =>
    exact ⟨h, rfl, lineOK_nil _, fun e' he' => ⟨rfl, by cases he'; exact he⟩⟩
  | none => exact loop_props inp s fail h

theorem linesFromF_lineOK : ∀ (fuel : Nat) (s : Scanner) (inp : List Char)
    (fail : Bool), Inv s →
    ∀ l ∈ (linesFromF fuel s inp fail).1, lineOK s.prefixStr l := by
  intro fuel
  induction fuel with
  | zero =>
    intro s inp fail _ l hl
    simp [linesFromF] at hl
  | succ n ih =>
    intro s inp fail h l hl
    obtain ⟨hInv, hpfx, hline, herr⟩ := ReadLine_props inp fail h
    simp only [linesFromF] at hl
    revert hl
    cases hr : (s.ReadLine inp fail).1.2 with
    | some e =>
      intro hl
      simp at hl
    | none =>
      intro hl
      simp only [List.mem_cons] at hl
      rcases hl with rfl | hl
      · exact hline
      · have := ih (s.ReadLine inp fail).2.1 (s.ReadLine inp fail).2.2 fail hInv l hl
        rwa [hpfx] at this

/-- Every line produced by a full run, from a freshly configured scanner,
has shape `lineOK` with respect to the configured prefix. -/
theorem linesFrom_lineOK (limit tw : Nat) (p inp : List Char) (fail : Bool)
    (l : List Char)
    (hl : l ∈ ((((NewScanner limit).SetPrefix p).SetTabWidth tw).linesFrom inp fail).1) :
    lineOK p l := by
  have hInv : Inv (((NewScanner limit).SetPrefix p).SetTabWidth tw) :=
    Inv_SetTabWidth _ _ (Inv_SetPrefix _ _ (Inv_NewScanner limit) rfl)
  exact linesFromF_lineOK _ _ _ _ hInv l hl

/-- A `loop` iteration that reaches the width check continues from the
`preCheck` state via `afterCheck`. -/
theorem loop_preCheck {s s2 : Scanner} {c : Char} (rest : List Char)
    (fail : Bool) (h : s.preCheck c = some s2) :
    s.loop (c :: rest) fail = s2.afterCheck rest fail := by
  unfold Scanner.preCheck at h
  unfold Scanner.loop Scanner.afterCheck
  by_cases hsp : isSpace c = true
  · rw [if_pos hsp] at h ⊢
    cases hbc : c == '\n' with
    | true => rw [if_pos hbc] at h; cases h
    | false =>
      rw [if_neg (by simp [hbc])] at h ⊢
      cases hsk : (s.flushWord).skipNextWS with
      | true => rw [if_pos hsk] at h; cases h
      | false =>
        rw [if_neg (by simp [hsk])] at h ⊢
        cases h
        rfl
  · rw [if_neg hsp] at h ⊢
    dsimp only [] at h ⊢
    cases hnn : s.needNewline with
    | true => rw [if_pos hnn] at h; cases h
    | false =>
      rw [if_neg (by simp [hnn])] at h ⊢
      cases h
      rw [hnn]

/-! ### Operation sequences on the counted accumulator -/

theorem bufWf_applyOp {b : runeBuffer} (h : bufWf b) {op : BufOp}
    (hop : opWf op) : bufWf (applyOp b op) := by
  have h1 : b.runeCount = b.buf.length := h
  cases op with
  | writeRune c => simp [applyOp, bufWf, h1]
  | writeString str => simp [applyOp, bufWf, h1]
  | transferIn src =>
    have h2 : src.runeCount = src.buf.length := hop
    simp [applyOp, bufWf, h1, h2]
  | transferOut dest => simp [applyOp, bufWf]
  | reset => simp [applyOp, bufWf, runeBuffer.Reset]

/-! ### The drain operation versus the produced lines -/

theorem writeToF_join : ∀ (fuel : Nat) (s : Scanner) (inp : List Char)
    (fail : Bool) (w : Sink) (acc : Nat) (firstLine : Bool),
    w.budget = none →
    writeToF fuel s inp fail w acc firstLine
      = (acc + (joinFrom firstLine (linesFromF fuel s inp fail).1).length,
         (if (linesFromF fuel s inp fail).2 = ScanErr.eof then none
          else some DrainErr.readFail),
         { written := w.written ++ joinFrom firstLine (linesFromF fuel s inp fail).1,
           budget := none }) := by
  intro fuel
  induction fuel with
  | zero =>
    intro s inp fail w acc firstLine hb
    obtain ⟨wl, wb⟩ := w
    cases hb
    cases firstLine <;> simp [writeToF, linesFromF, joinFrom, joinLines, joinRest]
  | succ n ih =>
    intro s inp fail w acc firstLine hb
    obtain ⟨wl, wb⟩ := w
    cases hb
    simp only [writeToF, linesFromF]
    split
    · rename_i heq
      cases firstLine <;> simp [heq, joinFrom, joinLines, joinRest]
    · rename_i heq
      cases firstLine <;> simp [heq, joinFrom, joinLines, joinRest]
    · rename_i heq
      have hstep := ih (s.ReadLine inp fail).2.1 (s.ReadLine inp fail).2.2 fail
      cases firstLine with
      | true =>
        have h1 := hstep { written := wl ++ (s.ReadLine inp fail).1.1, budget := none }
          (acc + (s.ReadLine inp fail).1.1.length) false rfl
        simp [Sink.write, heq, joinFrom, joinLines, joinRest, h1, Nat.add_assoc]
      | false =>
        have h1 := hstep
          { written := wl ++ '\n' :: (s.ReadLine inp fail).1.1, budget := none }
          (acc + (1 + (s.ReadLine inp fail).1.1.length)) false rfl
        simp only [joinFrom, Bool.false_eq_true, if_false] at h1
        simp [Sink.write, heq, joinFrom, joinLines, joinRest, h1, Nat.add_assoc,
          Nat.add_comm, Nat.add_left_comm]

theorem Sink.write_delta (w : Sink) (x : List Char) :
    ∃ δ : List Char, (w.write x).1.written = w.written ++ δ ∧
      (w.write x).2.1 = δ.length := by
  obtain ⟨wl, wb⟩ := w
  cases wb with
  | none => exact ⟨x, rfl, rfl⟩
  | some b =>
    by_cases hx : x.length ≤ b
    · exact ⟨x, by simp [Sink.write, hx], by simp [Sink.write, hx]⟩
    · exact ⟨x.take b, by simp [Sink.write, hx],
        by simp [Sink.write, hx]; omega⟩

theorem writeToF_delta : ∀ (fuel : Nat) (s : Scanner) (inp : List Char)
    (fail : Bool) (w : Sink) (acc : Nat) (firstLine : Bool),
    ∃ δ : List Char,
      (writeToF fuel s inp fail w acc firstLine).2.2.written = w.written ++ δ ∧
      (writeToF fuel s inp fail w acc firstLine).1 = acc + δ.length := by
  intro fuel
  induction fuel with
  | zero =>
    intro s inp fail w acc firstLine
    exact ⟨[], by simp [writeToF], by simp [writeToF]⟩
  | succ n ih =>
    intro s inp fail w acc firstLine
    simp only [writeToF]
    split
    · exact ⟨[], by simp, by simp⟩
    · exact ⟨[], by simp, by simp⟩
    · cases firstLine with
      | true =>
        obtain ⟨δ2, h2w, h2n⟩ := Sink.write_delta w (s.ReadLine inp fail).1.1
        rw [if_pos rfl]
        rw [if_neg (show ¬(((w, 0, false) : Sink × Nat × Bool).2.2 = true) by simp)]
        split
        · exact ⟨δ2, h2w, by simp [h2n]⟩
        · obtain ⟨δ3, h3w, h3n⟩ := ih (s.ReadLine inp fail).2.1
            (s.ReadLine inp fail).2.2 fail ((w.write (s.ReadLine inp fail).1.1).1)
            (acc + 0 + (w.write (s.ReadLine inp fail).1.1).2.1) false
          refine ⟨δ2 ++ δ3, ?_, ?_⟩
          · rw [h3w, h2w]
            simp
          · rw [h3n, h2n]
            simp [Nat.add_assoc]
      | false =>
        obtain ⟨δ1, h1w, h1n⟩ := Sink.write_delta w ['\n']
        rw [if_neg (show ¬((false : Bool) = true) by simp)]
        split
        · exact ⟨δ1, h1w, by rw [h1n]⟩
        · obtain ⟨δ2, h2w, h2n⟩ :=
            Sink.write_delta (w.write ['\n']).1 (s.ReadLine inp fail).1.1
          split
          · refine ⟨δ1 ++ δ2, ?_, ?_⟩
            · rw [h2w, h1w]
              simp
            · rw [h2n, h1n]
              simp [Nat.add_assoc]
          · obtain ⟨δ3, h3w, h3n⟩ := ih (s.ReadLine inp fail).2.1
              (s.ReadLine inp fail).2.2 fail
              (((w.write ['\n']).1.write (s.ReadLine inp fail).1.1).1)
              (acc + (w.write ['\n']).2.1 +
                ((w.write ['\n']).1.write (s.ReadLine inp fail).1.1).2.1) false
            refine ⟨(δ1 ++ δ2) ++ δ3, ?_, ?_⟩
            · rw [h3w, h2w, h1w]
              simp
            · rw [h3n, h2n, h1n]
              simp [Nat.add_assoc]

theorem loop_err (inp : List Char) : ∀ (s : Scanner) (fail : Bool) (e : ScanErr),
    (s.loop inp fail).1.2 = some e →
    (s.loop inp fail).1.1 = [] ∧ (s.loop inp fail).2.1.err = some e := by
  induction inp with
  | nil =>
    intro s fail e
    simp only [Scanner.loop]
    split
    · intro he
      cases he
      exact ⟨rfl, rfl⟩
    · exact fun he => Option.noConfusion he
  | cons c rest ih =>
    intro s fail e
    simp only [Scanner.loop]
    split
    · split
      · exact fun he => Option.noConfusion he
      · split
        · exact ih _ fail e
        · split
          · intro he
            cases he
            exact ⟨rfl, rfl⟩
          · exact ih _ fail e
    · split
      · exact fun he => Option.noConfusion he
      · split
        · intro he
          cases he
          exact ⟨rfl, rfl⟩
        · exact ih _ fail e

/-! ### The claims -/

/-- C1: the spec and the package documentation guarantee that every line
returned by `ReadLine` stays within the width limit, a word longer than the
width being split at exactly the width boundary.  The code violates this:
with width 4 and input `" abcde f"`, the run returns an over-long line of 5
codepoints (`"abcde"`), the over-long word never being split, because the
width check only splits a word whose count is exactly equal to the limit. -/
theorem C1_width_violation :
    ((NewScanner 4).linesFrom (" abcde f".toList) false).1
      = [[], "abcde".toList, "f".toList] ∧
    4 < ("abcde".toList).length := by
  constructor <;> decide

/-- C2 (counterexample): the lines produced with a prefix configured are
not the prefix concatenated to the lines of the prefix-less run, and the
break positions differ: width 9, input `"foo  bar  baz"`, prefix `"XXXX"`
produces three lines while the prefix-less run produces two, because the
prefix is counted by the width check. -/
theorem C2_counterexample :
    (((NewScanner 9).SetPrefix ("XXXX".toList)).linesFrom
        ("foo  bar  baz".toList) false).1
      = ["XXXXfoo".toList, "XXXXbar".toList, "XXXXbaz".toList] ∧
    ((NewScanner 9).linesFrom ("foo  bar  baz".toList) false).1
      = ["foo  bar".toList, "baz".toList] ∧
    (((NewScanner 9).SetPrefix ("XXXX".toList)).linesFrom
        ("foo  bar  baz".toList) false).1
      ≠ (((NewScanner 9).linesFrom ("foo  bar  baz".toList) false).1).map
          (fun l => if l = [] then [] else "XXXX".toList ++ l) := by
  refine ⟨by decide, by decide, by decide⟩

/-- C2 (amended): the configured prefix is applied to every non-empty
emitted line and never to an empty emitted line — every line of every run
is empty or an extension of the prefix.  (The other half of the claim is
false: the prefix is counted by the width check, so break positions may
shift; see the counterexample.) -/
theorem C2_amended_prefixing : ∀ (limit tw : Nat) (p inp : List Char)
    (fail : Bool) (l : List Char),
    l ∈ ((((NewScanner limit).SetPrefix p).SetTabWidth tw).linesFrom inp fail).1 →
    l = [] ∨ p <+: l := by
  intro limit tw p inp fail l hl
  rcases (linesFrom_lineOK limit tw p inp fail l hl).1 with h | h
  · exact Or.inl h
  · exact Or.inr h

/-- C2 (witness): the amended statement applied to a concrete run. -/
theorem C2_witness :
    ("--foo".toList = [] ∨ "--".toList <+: "--foo".toList) :=
  C2_amended_prefixing 4 4 ("--".toList) ("foo bar baz".toList) false
    ("--foo".toList) (by decide)

/-- C3 (counterexample): the sum of the three accumulator counts can exceed
width+1 at the point where the width check is evaluated: with width 2 and
the default tab width 4, the very first character of input `"\t"` expands to
4 pending spaces, so the check point of that `ReadLine` call sees sum 4,
which exceeds 2 + 1. -/
theorem C3_counterexample :
    (((NewScanner 2).preCheck '\t').map Scanner.sumCounts) = some 4 ∧
    (NewScanner 2).ReadLine ("\t".toList) false
      = (((NewScanner 2).flushWord).handleSpaceChar '\t').afterCheck [] false ∧
    ¬((((NewScanner 2).flushWord).handleSpaceChar '\t').sumCounts ≤ 2 + 1) := by
  refine ⟨by decide, by decide, by decide⟩

/-- C3 (amended): at every width-check evaluation — the state reached after
the character is processed, exposed by `preCheck` — a commit decision is
forced exactly when the sum of the committed-line, pending-word and
pending-space counts is at least the width, and nothing happens below the
width; the width+1 bound of the original claim does not hold (see the
counterexample). -/
theorem C3_amended_commit_trigger : ∀ (s s2 : Scanner) (c : Char)
    (rest : List Char) (fail : Bool), s.preCheck c = some s2 →
    s.loop (c :: rest) fail = s2.afterCheck rest fail ∧
    (s2.sumCounts < s2.limit → s2.widthCheck rest fail = Except.ok s2) ∧
    (s2.limit ≤ s2.sumCounts → s2.widthCheck rest fail = s2.forceCommit rest fail) := by
  intro s s2 c rest fail h
  refine ⟨loop_preCheck rest fail h, ?_, ?_⟩
  · intro hlt
    have hlt' : ¬(s2.limit ≤ s2.line.Count + s2.word.Count + s2.space.Count) := by
      have := hlt
      unfold Scanner.sumCounts at this
      omega
    unfold Scanner.widthCheck
    rw [if_neg hlt']
  · intro hge
    have hge' : s2.limit ≤ s2.line.Count + s2.word.Count + s2.space.Count := hge
    unfold Scanner.widthCheck
    rw [if_pos hge']

/-- C3 (witness): the amended statement applied to the counterexample
input. -/
theorem C3_amended_witness :
    (NewScanner 2).loop ('\t' :: []) false
      = (((NewScanner 2).flushWord).handleSpaceChar '\t').afterCheck [] false :=
  (C3_amended_commit_trigger (NewScanner 2)
    (((NewScanner 2).flushWord).handleSpaceChar '\t') '\t' [] false rfl).1

/-- C4: a tab read while pending whitespace is being accumulated expands to
exactly `tabWidth − (committedCount mod tabWidth)` spaces, where
`committedCount` is the committed line's current codepoint count, and to
exactly 0 spaces when the tab width is 0 (no failure, no division by zero);
such a `ReadLine` step continues through `handleSpaceChar` on the flushed
state and then the width check. -/
theorem C4_tab_expansion : ∀ (s : Scanner) (rest : List Char) (fail : Bool),
    ((s.handleSpaceChar '\t').space.buf
      = s.space.buf ++ List.replicate
          (if s.tabWidth = 0 then 0 else s.tabWidth - s.line.Count % s.tabWidth) ' ') ∧
    (s.tabWidth = 0 → (s.handleSpaceChar '\t').space.buf = s.space.buf) ∧
    (s.err = none → s.skipNextWS = false →
      s.ReadLine ('\t' :: rest) fail
        = ((s.flushWord).handleSpaceChar '\t').afterCheck rest fail) := by
  intro s rest fail
  refine ⟨?_, ?_, ?_⟩
  · unfold Scanner.handleSpaceChar
    rw [if_pos (show (('\t' == '\t') = true) from rfl)]
    rfl
  · intro h0
    unfold Scanner.handleSpaceChar
    rw [if_pos (show (('\t' == '\t') = true) from rfl)]
    simp [h0]
  · intro h1 h2
    have hpre : s.preCheck '\t' = some ((s.flushWord).handleSpaceChar '\t') := by
      unfold Scanner.preCheck
      rw [if_pos (show isSpace '\t' = true from rfl)]
      dsimp only []
      rw [if_neg (show ¬(('\t' == '\n') = true) by decide)]
      rw [(flushWord_fields s).2.2.2.2.2, h2]
      rw [if_neg (by simp)]
    unfold Scanner.ReadLine
    rw [h1]
    exact loop_preCheck rest fail hpre

/-- C4 (witness): the step equation applied to a fresh scanner. -/
theorem C4_witness :
    (NewScanner 8).ReadLine ('\t' :: ['x']) false
      = (((NewScanner 8).flushWord).handleSpaceChar '\t').afterCheck ['x'] false :=
  (C4_tab_expansion (NewScanner 8) ['x'] false).2.2 rfl rfl

/-- C5: a newline read by `ReadLine` terminates the line unconditionally —
the call returns the committed line (after flushing only the pending word,
so pending trailing whitespace is excluded), resets the committed line and
pending space and clears the skip flag — and explicit newlines, including
blank lines and a trailing newline, are preserved: width 8, empty prefix,
input `"foo\n\n\nbar\n"` yields exactly the lines
`["foo", "", "", "bar", ""]`. -/
theorem C5_newline_terminates :
    (∀ (s : Scanner) (rest : List Char) (fail : Bool), s.err = none →
      s.ReadLine ('\n' :: rest) fail
        = (((s.flushWord).line.buf, none),
           { s.flushWord with
              skipNextWS := false, line := runeBuffer.empty,
              space := runeBuffer.empty }, rest)) ∧
    (NewScanner 8).linesFrom ("foo\n\n\nbar\n".toList) false
      = (["foo".toList, [], [], "bar".toList, []], ScanErr.eof) := by
  constructor
  · intro s rest fail h
    unfold Scanner.ReadLine
    rw [h]
    unfold Scanner.loop
    rw [if_pos (show isSpace '\n' = true from rfl)]
    dsimp only []
    rw [if_pos (show (('\n' == '\n') = true) from rfl)]
  · decide

/-- C5 (witness): the newline equation applied to a fresh scanner. -/
theorem C5_witness :
    (NewScanner 8).ReadLine ('\n' :: []) false
      = ((((NewScanner 8).flushWord).line.buf, none),
         { (NewScanner 8).flushWord with
            skipNextWS := false, line := runeBuffer.empty,
            space := runeBuffer.empty }, []) :=
  C5_newline_terminates.1 (NewScanner 8) [] false rfl

/-- C6: the scanner is permanently terminal: once `err` holds an outcome
(the end-of-input sentinel or a read failure), every `ReadLine` call
returns that same outcome with an empty line and an unchanged state; and
whenever a `ReadLine` call returns an error, the returned line is empty (no
partial text) and the same error is recorded in the state, so all
subsequent calls return it verbatim. -/
theorem C6_terminal_persistence :
    (∀ (s : Scanner) (inp : List Char) (fail : Bool) (e : ScanErr),
      s.err = some e → s.ReadLine inp fail = (([], some e), s, inp)) ∧
    (∀ (s : Scanner) (inp : List Char) (fail : Bool) (e : ScanErr),
      (s.ReadLine inp fail).1.2 = some e →
      (s.ReadLine inp fail).1.1 = [] ∧ (s.ReadLine inp fail).2.1.err = some e) := by
  constructor
  · intro s inp fail e he
    unfold Scanner.ReadLine
    rw [he]
  · intro s inp fail e
    unfold Scanner.ReadLine
    cases he : s.err with
    | some e0 =>
      intro he'
      cases he'
      exact ⟨rfl, he⟩
    | none => exact loop_err inp s fail e

/-- C6 (witness): a scanner already at end of input returns the sentinel
with an empty line and an unchanged state. -/
theorem C6_witness :
    ({ NewScanner 3 with err := some ScanErr.eof } : Scanner).ReadLine ['a'] false
      = (([], some ScanErr.eof),
         ({ NewScanner 3 with err := some ScanErr.eof } : Scanner), ['a']) :=
  C6_terminal_persistence.1 _ ['a'] false ScanErr.eof rfl

/-- C7: no emitted line ever ends in whitespace — in every run, every
produced line is empty or ends in a non-whitespace codepoint — and a
whitespace-only input (or the empty input) yields exactly one line, the
empty string, before the end-of-input sentinel: width 4, input `"   "`
yields `[""]`, as does the empty input. -/
theorem C7_no_trailing_whitespace :
    (∀ (limit tw : Nat) (p inp : List Char) (fail : Bool) (l : List Char)
      (c : Char),
      l ∈ ((((NewScanner limit).SetPrefix p).SetTabWidth tw).linesFrom inp fail).1 →
      l.getLast? = some c → isSpace c = false) ∧
    (NewScanner 4).linesFrom ("   ".toList) false = ([[]], ScanErr.eof) ∧
    (NewScanner 4).linesFrom [] false = ([[]], ScanErr.eof) := by
  refine ⟨?_, by decide, by decide⟩
  intro limit tw p inp fail l c hl hc
  exact (linesFrom_lineOK limit tw p inp fail l hl).2.1 c hc

/-- C7 (witness): the no-trailing-whitespace statement applied to a
concrete run. -/
theorem C7_witness : isSpace 'b' = false :=
  C7_no_trailing_whitespace.1 4 4 [] ("ab".toList) false ("ab".toList) 'b'
    (by decide) (by decide)

/-- C8: the counted accumulator's cached codepoint count equals the length
of its stored content after any sequence of write, transfer and reset
operations, and a transfer (`WriteTo`) appends all of the source's content
after the destination's existing content, adds the source's count to the
destination's, and leaves the source empty with count zero. -/
theorem C8_runeBuffer_invariant :
    (∀ (ops : List BufOp) (b : runeBuffer), bufWf b →
      (∀ op ∈ ops, opWf op) → bufWf (applyOps b ops)) ∧
    (∀ b w : runeBuffer, bufWf b → bufWf w →
      (b.WriteTo w).2.buf = w.buf ++ b.buf ∧
      (b.WriteTo w).2.Count = w.Count + b.Count ∧
      (b.WriteTo w).1 = runeBuffer.empty ∧
      bufWf (b.WriteTo w).2 ∧ bufWf (b.WriteTo w).1) := by
  constructor
  · intro ops
    induction ops with
    | nil => intro b hb _; exact hb
    | cons op ops ih =>
      intro b hb hops
      exact ih (applyOp b op) (bufWf_applyOp hb (hops op (by simp)))
        (fun o ho => hops o (by simp [ho]))
  · intro b w hb hw
    refine ⟨rfl, rfl, rfl, ?_, rfl⟩
    have hb' : b.runeCount = b.buf.length := hb
    have hw' : w.runeCount = w.buf.length := hw
    show w.runeCount + b.runeCount = (w.buf ++ b.buf).length
    simp [hb', hw']

/-- C8 (witness): the invariant after a concrete sequence of operations. -/
theorem C8_witness :
    bufWf (applyOps runeBuffer.empty
      [BufOp.writeRune 'a', BufOp.writeString ("bc".toList),
       BufOp.transferIn { buf := ['d'], runeCount := 1 }, BufOp.reset]) :=
  C8_runeBuffer_invariant.1 _ runeBuffer.empty rfl
    (by
      intro op hop
      simp only [List.mem_cons, List.not_mem_nil, or_false] at hop
      rcases hop with rfl | rfl | rfl | rfl <;> trivial)

/-- C9: `WriteTo` writes to the sink exactly the `ReadLine` results joined
by one newline before every line after the first; end of input stops the
drain and is reported as success; the reported count always equals the
units actually written to the sink, also when a read failure or a sink
write failure (third conjunct, a sink accepting only 2 units) cuts the
drain short. -/
theorem C9_writeTo_drain :
    (∀ (s : Scanner) (inp : List Char) (fail : Bool),
      s.WriteTo inp fail { written := [], budget := none }
        = ((joinLines (s.linesFrom inp fail).1).length,
           (if (s.linesFrom inp fail).2 = ScanErr.eof then none
            else some DrainErr.readFail),
           { written := joinLines (s.linesFrom inp fail).1, budget := none })) ∧
    (∀ (s : Scanner) (inp : List Char) (fail : Bool) (w : Sink),
      ∃ δ : List Char,
        ((s.WriteTo inp fail w).2.2).written = w.written ++ δ ∧
        (s.WriteTo inp fail w).1 = δ.length) ∧
    ((NewScanner 10).WriteTo ("foo bar".toList) false
        { written := [], budget := some 2 }
      = (2, some DrainErr.sinkFail, { written := "fo".toList, budget := some 0 })) := by
  refine ⟨?_, ?_, by decide⟩
  · intro s inp fail
    unfold Scanner.WriteTo Scanner.linesFrom
    rw [writeToF_join _ _ _ _ _ _ _ rfl]
    simp [joinFrom]
  · intro s inp fail w
    obtain ⟨δ, h1, h2⟩ := writeToF_delta (inp.length + 2) s inp fail w 0 true
    exact ⟨δ, h1, by simpa using h2⟩

/-- C10: no string returned by `ReadLine` ever contains a newline
codepoint (for any run whose configured prefix is newline-free): the
terminating newline is consumed without being stored, non-newline
whitespace goes only to the pending-space run, and non-whitespace only to
the pending word. -/
theorem C10_no_newline_in_output : ∀ (limit tw : Nat) (p inp : List Char)
    (fail : Bool) (l : List Char), '\n' ∉ p →
    l ∈ ((((NewScanner limit).SetPrefix p).SetTabWidth tw).linesFrom inp fail).1 →
    '\n' ∉ l := by
  intro limit tw p inp fail l hp hl
  exact (linesFrom_lineOK limit tw p inp fail l hl).2.2 hp

/-- C10 (witness): the statement applied to a concrete run. -/
theorem C10_witness : '\n' ∉ ("--foo".toList) :=
  C10_no_newline_in_output 4 4 ("--".toList) ("foo\nbar".toList) false
    ("--foo".toList) (by decide) (by decide)

end Wordwrap
